import Mathlib

/-!
Verification development for the LiteX-CNC quadrature-encoder driver
(`src/litexcnc/driver/modules/litexcnc_encoder.c`).

The C code is shallowly embedded as executable Lean definitions:

* machine integers are modelled as `Nat`/`Int` (the raw counter values
  decoded from the wire are 32-bit two's-complement values, produced by
  `toInt32`); C truncating division is `Int.tdiv`;
* HAL `float` pins (doubles) are modelled as exact rationals `ℚ`;
* the byte buffers exchanged with the FPGA are total maps `Nat → Nat`
  (byte index to byte value); the driver walks them with a byte cursor
  and a walking one-byte mask, exactly as the C loops do;
* the per-channel HAL pin/param/memo block is the structure `EncInstance`,
  the module-level state (`litexcnc_encoder_t`) is `EncoderModule`.
-/

namespace LitexcncEncoder

/-! ### Buffer sizing (`single_dword_buffer`, `required_write_buffer`,
`required_read_buffer`, lines 99-123 of the C source) -/

/-- `single_dword_buffer`:
`(((n)>>5) + ((n & 0x1F)?1:0)) * 4` — bytes of one bit-packed register. -/
def single_dword_buffer (n : Nat) : Nat :=
  ((n >>> 5) + (if n &&& 31 = 0 then 0 else 1)) * 4

/-- `required_write_buffer`: two bit-packed registers (index enable and
reset index pulse). -/
def required_write_buffer (n : Nat) : Nat :=
  single_dword_buffer n * 2

/-- `required_read_buffer`.  NOTE (faithful to the C): the second summand
multiplies the **file-global** `num_instances` (the number of registered
encoder *module* instances, one per board), not `encoder->num_instances`
(the channel count).  `sizeof(litexcnc_encoder_instance_read_data_t)` is
modelled from the spec: the per-channel read record is a single 32-bit
integer, so the size is 4 bytes (the header defining the struct is not in
`src/`). -/
def required_read_buffer (global_num_instances n : Nat) : Nat :=
  single_dword_buffer n + global_num_instances * 4

/-! ### The shared-register loop

All three shared-register loops in the C source (the index-pulse decode in
`litexcnc_encoder_process_read` and the index-enable / reset-index-pulse
encodes in `litexcnc_encoder_prepare_write`) have the identical shape

```
mask = 0x80;
for (size_t i=single_dword_buffer(encoder)*8; i>0; i--) {
    if (i < encoder->num_instances) { ... instances[i-1] ... mask ... }
    mask >>= 1;
    if (!mask) { mask = 0x80; (*data)++; }
}
```

`regLoop step fuel byte mask s` embeds this loop: `fuel` is the loop
counter `i`, `byte` the buffer cursor `*data`, `mask` the walking mask and
`step` the loop body (which receives `i`, the cursor and the mask). -/

def regLoop {σ : Type} (step : Nat → Nat → Nat → σ → σ) :
    Nat → Nat → Nat → σ → σ
  | 0, _, _, s => s
  | i+1, byte, mask, s =>
    let s' := step (i+1) byte mask s
    let mask' := mask >>> 1
    if mask' = 0 then regLoop step i (byte+1) 128 s'
    else regLoop step i byte mask' s'

/-- Positional reformulation of `regLoop`: when the loop is started with
counter `F`, cursor `b0` and mask `0x80`, the iteration with counter value
`i` works on bit number `F - i` of the register block, i.e. on byte
`b0 + (F-i)/8` with mask `2^(7 - (F-i) % 8)` (MSB-first within each
byte). -/
def regIter {σ : Type} (step : Nat → Nat → Nat → σ → σ) (F b0 : Nat) :
    Nat → σ → σ
  | 0, s => s
  | i+1, s =>
    regIter step F b0 i
      (step (i+1) (b0 + (F-(i+1))/8) (2^(7-(F-(i+1)) % 8)) s)

/-! ### Encode / decode loop bodies -/

/-- Point update of a total map. -/
def updB (f : Nat → Bool) (k : Nat) (v : Bool) : Nat → Bool :=
  fun j => if j = k then v else f j

/-- Loop body of the two encode loops in `litexcnc_encoder_prepare_write`:
`if (i < encoder->num_instances) { *(*data) |= flag(i-1) ? mask : 0; }`. -/
def stepEnc (n : Nat) (flags : Nat → Bool) (i byte mask : Nat)
    (buf : Nat → Nat) : Nat → Nat :=
  if i < n then
    fun b => if b = byte then buf b ||| (if flags (i-1) then mask else 0)
             else buf b
  else buf

/-- Loop body of the index-pulse decode loop in
`litexcnc_encoder_process_read`: reads the bit, stores it on the
`index_pulse` pin of instance `i-1` and clears that instance's
`index_enable` pin when the bit is set.  The state is the pair of pin maps
`(index_pulse, index_enable)`. -/
def stepDec (n : Nat) (buf : Nat → Nat) (i byte mask : Nat)
    (st : (Nat → Bool) × (Nat → Bool)) : (Nat → Bool) × (Nat → Bool) :=
  if i < n then
    let pulse : Bool := buf byte &&& mask != 0
    (updB st.1 (i-1) pulse,
     if pulse then updB st.2 (i-1) false else st.2)
  else st

/-- One bit-packed shared register encode (used for both the index-enable
and the reset-index-pulse register of the write buffer), starting at byte
`b0` of the buffer. -/
def encodeRegister (n : Nat) (flags : Nat → Bool) (b0 : Nat)
    (buf : Nat → Nat) : Nat → Nat :=
  regLoop (stepEnc n flags) (single_dword_buffer n * 8) b0 128 buf

/-- The bit-packed shared index-pulse register decode of the read buffer,
starting at byte `b0`. -/
def decodeRegister (n : Nat) (buf : Nat → Nat) (b0 : Nat)
    (st : (Nat → Bool) × (Nat → Bool)) : (Nat → Bool) × (Nat → Bool) :=
  regLoop (stepDec n buf) (single_dword_buffer n * 8) b0 128 st

/-! ### Per-channel state and the estimator update
(`litexcnc_encoder_process_read`, lines 233-336)

HAL float pins/params are modelled as exact rationals; the `s32` pins and
memo fields as unbounded integers (the wire decode only ever produces
values in the 32-bit two's-complement range). -/

/-- One encoder channel: HAL pins (`raw_counts`, `counts`, `reset`,
`index_enable`, `index_pulse`, `position`, `velocity`, `velocity_rpm`,
`overflow_occurred`), params (`position_scale`, `x4_mode`) and the memo /
data blocks (`memo.position_scale`, `data.position_scale_recip`,
`memo.position_reset`, `memo.velocity`). -/
structure EncInstance where
  raw_counts : Int
  counts : Int
  reset : Bool
  index_enable : Bool
  index_pulse : Bool
  position : ℚ
  velocity : ℚ
  velocity_rpm : ℚ
  overflow_occurred : Bool
  position_scale : ℚ
  x4_mode : Bool
  memo_position_scale : ℚ
  position_scale_recip : ℚ
  memo_position_reset : Int
  memo_velocity : Nat → ℚ

/-- Point update of a rational-valued map (the velocity ring storage). -/
def updQ (f : Nat → ℚ) (k : Nat) (v : ℚ) : Nat → ℚ :=
  fun j => if j = k then v else f j

/-- C truncating division by 4 of a (32-bit) signed integer. -/
def cdiv4 (x : Int) : Int := Int.tdiv x 4

/-- `1e-20`, the clamp threshold for `position_scale`. -/
def scaleEps : ℚ := 1 / 10^20

def int32_min : Int := -2147483648

def int32_max : Int := 2147483647

def uint32_max : Int := 4294967295

/-- Lines 239-247: if `position_scale` changed since the last tick, clamp
near-zero values to `1.0`, recompute `data.position_scale_recip` and
re-memoise. -/
def scaleStep (s : EncInstance) : EncInstance :=
  if s.position_scale = s.memo_position_scale then s
  else
    let ps := if -scaleEps < s.position_scale ∧ s.position_scale < scaleEps
              then (1:ℚ) else s.position_scale
    { s with position_scale := ps, position_scale_recip := 1 / ps,
             memo_position_scale := ps }

/-- Lines 286-288: the index-pulse branch of the position update. -/
def ipBranch (s : EncInstance) : EncInstance :=
  { s with position := (s.counts : ℚ) * s.position_scale_recip,
           overflow_occurred := false }

/-- Lines 289-318: the roll-over detection branch of the position
update. `counts_old` is the local variable of the C code (possibly
re-baselined by the reset mechanism). -/
def diffBranch (s : EncInstance) (counts_old : Int) : EncInstance :=
  let difference : Int := s.raw_counts - counts_old
  let detected : Bool := difference < int32_min || difference > int32_max
  let s' := if detected then { s with overflow_occurred := true } else s
  let difference :=
    if detected then
      let d := if difference < 0 then difference + uint32_max
               else difference - uint32_max
      if s'.x4_mode then d else cdiv4 d
    else difference
  if s'.overflow_occurred then
    { s' with position := s'.position + (difference : ℚ) * s'.position_scale_recip }
  else
    { s' with position := (s'.counts : ℚ) * s'.position_scale_recip }

/-- Lines 324-335: the running-average velocity update and the shared
write-cursor advance.  The design constants
`LITEXCNC_ENCODER_POSITION_AVERAGE_SIZE` (here `N`) and
`LITEXCNC_ENCODER_POSITION_AVERAGE_RECIP` are modelled from the spec: the
header defining them is not in `src/`; the spec (§3, §4.3) fixes the
filter to an arithmetic mean over `N` ring entries, so the reciprocal
constant is `1/N`.  `position_old` is the C local of the same name, `vp`
the shared `encoder->memo.velocity_pointer`.  Faithful to the C
post-increment `velocity_pointer++ >= SIZE`, the cursor is reset to `0`
only when its *old* value was already `≥ N`. -/
def velocityStep (N : Nat) (recip_dt : ℚ) (vp : Nat) (position_old : ℚ)
    (s : EncInstance) : EncInstance × Nat :=
  let hist := updQ s.memo_velocity vp ((s.position - position_old) * recip_dt)
  let average : ℚ := Finset.sum (Finset.range N) (fun j => hist j)
  let vel := average * (1 / (N:ℚ))
  ({ s with memo_velocity := hist, velocity := vel,
            velocity_rpm := vel * 60 },
   if N ≤ vp then 0 else vp + 1)

/-- The whole per-channel body of the read loop
(`litexcnc_encoder_process_read`, lines 233-336): scale memo check, read
of the new raw counter value, x4 adjustment, reset mechanism, reset-offset
application, position update with roll-over detection, velocity update.
Returns the updated channel together with the updated shared velocity
write cursor. -/
def encoderInstanceUpdate (N : Nat) (recip_dt : ℚ) (vp : Nat)
    (raw_new : Int) (s0 : EncInstance) : EncInstance × Nat :=
  let s1 := scaleStep s0
  -- int32_t counts_old = *(instance->hal.pin.raw_counts);
  let counts_old := s1.raw_counts
  -- store the received counts; x4 adjustment
  let s2 := { s1 with raw_counts := raw_new,
                      counts := if s1.x4_mode then raw_new
                                else cdiv4 raw_new }
  -- reset mechanism (lines 266-275)
  let s3 := if s2.reset then
      { s2 with overflow_occurred := false,
                memo_position_reset := s2.counts, reset := false }
    else s2
  let counts_old := if s2.reset then s2.raw_counts else counts_old
  -- apply the reset offset (line 278)
  let s4 := { s3 with counts := s3.counts - s3.memo_position_reset }
  -- position update (lines 280-318)
  let position_old := s4.position
  let s5 := if s4.index_pulse then ipBranch s4 else diffBranch s4 counts_old
  -- velocity update (lines 320-335), skipped on an index pulse
  if s5.index_pulse then (s5, vp)
  else velocityStep N recip_dt vp position_old s5

/-! ### Module-level state and the two per-tick entry points -/

/-- `litexcnc_encoder_t`: channel count, channel array, the period memo
with the cached `recip_dt`, and the shared velocity write cursor. -/
structure EncoderModule where
  num_instances : Nat
  instances : Nat → EncInstance
  memo_period : Int
  recip_dt : ℚ
  velocity_pointer : Nat

/-- Point update of the channel array. -/
def updI (f : Nat → EncInstance) (k : Nat) (v : EncInstance) :
    Nat → EncInstance :=
  fun j => if j = k then v else f j

/-- Big-endian 32-bit read at byte offset `off` (`be32toh` of the copied
record). -/
def be32 (buf : Nat → Nat) (off : Nat) : Nat :=
  ((((buf off % 256) * 256 + buf (off+1) % 256) * 256
    + buf (off+2) % 256) * 256 + buf (off+3) % 256)

/-- `(int32_t)` reinterpretation of a 32-bit unsigned value. -/
def toInt32 (u : Nat) : Int :=
  if u % 4294967296 < 2147483648 then (u % 4294967296 : Int)
  else (u % 4294967296 : Int) - 4294967296

/-- The per-channel half of `litexcnc_encoder_process_read` (lines
230-336): channels `0, …, c-1` processed in order, threading the shared
velocity write cursor. -/
def runChannels (N : Nat) (recip_dt : ℚ) (raws : Nat → Int) :
    Nat → (Nat → EncInstance) → Nat → ((Nat → EncInstance) × Nat)
  | 0, inst, vp => (inst, vp)
  | c+1, inst, vp =>
    let r := runChannels N recip_dt raws c inst vp
    let u := encoderInstanceUpdate N recip_dt r.2 (raws c) (r.1 c)
    (updI r.1 c u.1, u.2)

/-- Lines 197-202 of `litexcnc_encoder_process_read`: recompute the
cached `recip_dt` when the observed period changed. -/
def memoStep (m : EncoderModule) (period : Int) : EncoderModule :=
  if m.memo_period ≠ period then
    { m with recip_dt := 1 / ((period : ℚ) * (1/1000000000)),
             memo_period := period }
  else m

/-- The channel array after the shared index-pulse register decode (lines
204-228): channel `c`'s `index_pulse` and `index_enable` pins take the
values the decode loop left in the pin maps. -/
def decodedInstances (m : EncoderModule) (buf : Nat → Nat) :
    Nat → EncInstance :=
  fun c =>
    { m.instances c with
        index_pulse := (decodeRegister m.num_instances buf 0
          ((fun j => (m.instances j).index_pulse),
           (fun j => (m.instances j).index_enable))).1 c,
        index_enable := (decodeRegister m.num_instances buf 0
          ((fun j => (m.instances j).index_pulse),
           (fun j => (m.instances j).index_enable))).2 c }

/-- The raw counter value decoded for channel `c`: a big-endian 32-bit
record at byte offset `single_dword_buffer + 4*c` of the read buffer
(lines 249-258; the shared register consumed `single_dword_buffer` bytes
and each record `sizeof(litexcnc_encoder_instance_read_data_t) = 4`). -/
def readRaws (n : Nat) (buf : Nat → Nat) : Nat → Int :=
  fun c => toInt32 (be32 buf (single_dword_buffer n + 4*c))

/-- `litexcnc_encoder_process_read`: early return when no channels are
configured; `recip_dt` memoisation; shared index-pulse register decode;
then the per-channel records and per-channel state update, threading the
shared velocity write cursor. -/
def litexcnc_encoder_process_read (N : Nat) (m : EncoderModule)
    (buf : Nat → Nat) (period : Int) : EncoderModule :=
  if m.num_instances = 0 then m
  else
    { memoStep m period with
        instances :=
          (runChannels N (memoStep m period).recip_dt
            (readRaws (memoStep m period).num_instances buf)
            (memoStep m period).num_instances
            (decodedInstances (memoStep m period) buf)
            (memoStep m period).velocity_pointer).1,
        velocity_pointer :=
          (runChannels N (memoStep m period).recip_dt
            (readRaws (memoStep m period).num_instances buf)
            (memoStep m period).num_instances
            (decodedInstances (memoStep m period) buf)
            (memoStep m period).velocity_pointer).2 }

/-- `litexcnc_encoder_prepare_write`: early return when no channels are
configured; the index-enable register is encoded into bytes
`0, …, single_dword_buffer-1` and the reset-index-pulse register (fed from
the `index_pulse` pins) into the following `single_dword_buffer` bytes
(the cursor has advanced exactly that far because the mask rolls over at
each byte boundary). -/
def litexcnc_encoder_prepare_write (m : EncoderModule)
    (buf : Nat → Nat) : Nat → Nat :=
  if m.num_instances = 0 then buf
  else
    encodeRegister m.num_instances (fun c => (m.instances c).index_pulse)
      (single_dword_buffer m.num_instances)
      (encodeRegister m.num_instances
        (fun c => (m.instances c).index_enable) 0 buf)

/-- `m` with the `index_enable` / `index_pulse` pins of its *last*
channel replaced. -/
def setLastPins (m : EncoderModule) (ie ip : Bool) : EncoderModule :=
  let s := m.instances (m.num_instances - 1)
  let s' := { s with index_enable := ie, index_pulse := ip }
  { m with instances := updI m.instances (m.num_instances - 1) s' }

/-! ### Concrete fixtures used by witnesses and counterexamples -/

/-- The all-zero byte buffer. -/
def zeroBuf : Nat → Nat := fun _ => 0

/-- A buffer whose bytes are all `0xFF`. -/
def ffBuf : Nat → Nat := fun _ => 255

/-- A concrete channel with the given `index_enable` / `index_pulse` pins
(scale 1, x4 mode, everything else zeroed). -/
def sampleInst (ie ip : Bool) : EncInstance :=
  ⟨0, 0, false, ie, ip, 0, 0, 0, false, 1, true, 1, 1, 0, fun _ => 0⟩

/-- Two channels; channel 0 has `index_enable = true`, channel 1 has
`index_enable = false`; all `index_pulse` pins low. -/
def moduleTwoCh : EncoderModule :=
  ⟨2, fun c => if c = 0 then sampleInst true false else sampleInst false false,
   0, 1, 0⟩

/-- One channel, with both outgoing flags low. -/
def moduleOneCh : EncoderModule :=
  ⟨1, fun _ => sampleInst false false, 0, 1, 0⟩

/-- A channel in steady state (scale 1 memoised, x4 mode, counter at 0, no
flags) with arbitrary velocity pins and velocity history: the shape that
is preserved tick after tick when the raw counter stays 0. -/
def velocityProbe (vel rpm : ℚ) (h : Nat → ℚ) : EncInstance :=
  ⟨0, 0, false, false, false, 0, vel, rpm, false, 1, true, 1, 1, 0, h⟩

/-- `k` consecutive ticks of a single-channel module whose raw counter
stays at 0, starting from the shared velocity write cursor 0 and a
velocity history filled with the sentinel value 5. -/
def singleChannelTicks (N : Nat) : Nat → (EncInstance × Nat)
  | 0 => (velocityProbe 0 0 (fun _ => 5), 0)
  | k+1 =>
    let t := singleChannelTicks N k
    encoderInstanceUpdate N 1 t.2 0 t.1

/-- Fresh channel (scale 1 memoised, given x4 mode) about to be fed the
rollover sequence. -/
def rolloverStart (x4 : Bool) : EncInstance :=
  ⟨0, 0, false, false, false, 0, 0, 0, false, 1, x4, 1, 1, 0, fun _ => 0⟩

/-- A channel whose `position_scale` is 0 with the memoised scale also 0
and a cached reciprocal of 0 — the state produced by zero-initialised HAL
memory when the user never writes `position-scale`. -/
def zeroScaleInst : EncInstance :=
  ⟨0, 0, false, false, false, 0, 0, 0, false, 0, true, 0, 0, 0, fun _ => 0⟩

/-- Channel with `index_pulse` high this tick, a sticky overflow flag and
a non-trivial scale, used to witness the index-pulse re-anchoring. -/
def pulseInst : EncInstance :=
  ⟨7, 3, false, true, true, 50, 2, 120, true, 2, false, 2, 1/2, 1, fun _ => 9⟩

/-- Channel with `reset` requested, scale 1 and a pre-reset counter of
1000 about to be read. -/
def resetInst : EncInstance :=
  ⟨500, 125, true, false, false, 7, 0, 0, true, 1, true, 1, 1, 0, fun _ => 0⟩

/-- Channel whose `position_scale` was just changed to 0 (memo still 2). -/
def freshZeroScaleInst : EncInstance :=
  ⟨40, 40, false, false, false, 11, 0, 0, false, 0, true, 2, 1/2, 0, fun _ => 0⟩

/-- Bit number of the register block that the loops associate with
channel `k` (valid for `k + 1 < n`): the iteration with counter `i = k+1`
processes bit `F - (k+1)` where `F` is the bit size of the block. -/
def chanBitPos (n k : Nat) : Nat := single_dword_buffer n * 8 - (k+1)

theorem single_dword_buffer_eq (n : Nat) :
    single_dword_buffer n = (n + 31) / 32 * 4 := by
  have h31 : n &&& 31 = n % 32 := by
    simpa using Nat.and_pow_two_sub_one_eq_mod n 5
  unfold single_dword_buffer
  rw [Nat.shiftRight_eq_div_pow, h31]
  have h32 : (2:Nat)^5 = 32 := rfl
  rw [h32]
  rcases Nat.eq_zero_or_pos (n % 32) with h | h
  · rw [h, if_pos rfl]; omega
  · rw [if_neg (by omega)]; omega

theorem le_single_dword_buffer_bits (n : Nat) :
    n ≤ single_dword_buffer n * 8 := by
  rw [single_dword_buffer_eq]
  omega

theorem regLoop_eq_regIter {σ : Type} (step : Nat → Nat → Nat → σ → σ)
    (F b0 : Nat) :
    ∀ i, i ≤ F → ∀ s : σ,
      regLoop step i (b0 + (F-i)/8) (2^(7-(F-i) % 8)) s
        = regIter step F b0 i s := by
  intro i
  induction i with
  | zero => intro _ s; rfl
  | succ i ih =>
    intro hiF s
    have hi : i ≤ F := Nat.le_of_succ_le hiF
    have hp8 : (F - (i+1)) % 8 < 8 := Nat.mod_lt _ (by norm_num)
    unfold regLoop
    conv_rhs => rw [regIter]
    rcases Nat.lt_or_ge ((F - (i+1)) % 8) 7 with hr | hr
    · -- mask does not roll over: stay on the same byte
      have h7 : 7 - (F - (i+1)) % 8 = (7 - (F - i) % 8) + 1 := by omega
      have hmask : (2:Nat)^(7 - (F - (i+1)) % 8) >>> 1
          = 2^(7 - (F - i) % 8) := by
        rw [Nat.shiftRight_eq_div_pow, h7, pow_succ,
          Nat.mul_div_cancel _ (by norm_num)]
      have hne : (2:Nat)^(7 - (F - i) % 8) ≠ 0 := by positivity
      have hbyte : b0 + (F - (i+1))/8 = b0 + (F - i)/8 := by omega
      simp only [hmask, if_neg hne, hbyte]
      exact ih hi _
    · -- mask rolls over to the next byte
      have hr7 : (F - (i+1)) % 8 = 7 := by omega
      have hmask : (2:Nat)^(7 - (F - (i+1)) % 8) >>> 1 = 0 := by
        rw [hr7]; rfl
      have h128 : (2:Nat)^(7 - (F - i) % 8) = 128 := by
        have h0 : (F - i) % 8 = 0 := by omega
        rw [h0]; rfl
      have hbyte : b0 + (F - (i+1))/8 + 1 = b0 + (F - i)/8 := by omega
      simp only [hmask, if_pos rfl]
      rw [hbyte, ← h128]
      exact ih hi _

theorem regLoop_start_eq_regIter {σ : Type}
    (step : Nat → Nat → Nat → σ → σ) (F b0 : Nat) (s : σ) :
    regLoop step F b0 128 s = regIter step F b0 F s := by
  have h := regLoop_eq_regIter step F b0 F le_rfl s
  simpa using h

/-! ### Characterization of the encode loop -/

theorem stepEnc_testBit_ne (n : Nat) (flags : Nat → Bool)
    (i byte e B t : Nat) (buf : Nat → Nat)
    (h : ¬(B = byte ∧ t = e)) :
    Nat.testBit (stepEnc n flags i byte (2^e) buf B) t
      = Nat.testBit (buf B) t := by
  unfold stepEnc
  split
  · rcases eq_or_ne B byte with hB | hB
    · have ht : t ≠ e := fun hte => h ⟨hB, hte⟩
      simp only [hB, if_pos rfl]
      rcases hf : flags (i-1) with _ | _
      · simp
      · simp [Nat.testBit_lor, Nat.testBit_two_pow_of_ne (Ne.symm ht)]
    · simp [hB]
  · rfl

theorem stepEnc_testBit_self (n : Nat) (flags : Nat → Bool)
    (k byte e : Nat) (buf : Nat → Nat) (hk : k + 1 < n) :
    Nat.testBit (stepEnc n flags (k+1) byte (2^e) buf byte) e
      = (Nat.testBit (buf byte) e || flags k) := by
  unfold stepEnc
  rw [if_pos hk]
  simp only [if_pos rfl, Nat.add_sub_cancel]
  rcases hf : flags k with _ | _
  · simp
  · simp [Nat.testBit_lor, Nat.testBit_two_pow_self]

/-- Bit-level frame property of the encode loop: a bit whose position is
not among the (still to be processed) positions `F-i, …, F-1` is left
unchanged. -/
theorem encIter_bitFrame (n : Nat) (flags : Nat → Bool) (F b0 : Nat) :
    ∀ i, i ≤ F → ∀ (buf : Nat → Nat) (B t : Nat),
      (∀ p, F - i ≤ p → p < F → ¬(B = b0 + p/8 ∧ t = 7 - p % 8)) →
      Nat.testBit (regIter (stepEnc n flags) F b0 i buf B) t
        = Nat.testBit (buf B) t := by
  intro i
  induction i with
  | zero => intro _ buf B t _; rfl
  | succ i ih =>
    intro hiF buf B t hp
    have hlt : F - (i+1) < F := by omega
    rw [regIter, ih (by omega) _ B t (fun p h1 h2 => hp p (by omega) h2)]
    exact stepEnc_testBit_ne n flags (i+1) _ _ B t buf
      (hp (F - (i+1)) le_rfl hlt)

/-- The encode loop ORs the flag of channel `k` (for `k+1 < n`) into bit
number `F-1-k` of the register block: byte `b0 + (F-1-k)/8`, bit
`7 - (F-1-k) % 8` (MSB-first within each byte). -/
theorem encIter_channel (n : Nat) (flags : Nat → Bool) (F b0 : Nat)
    (k : Nat) (hk : k + 1 < n) :
    ∀ i, k + 1 ≤ i → i ≤ F → ∀ buf : Nat → Nat,
      Nat.testBit
        (regIter (stepEnc n flags) F b0 i buf (b0 + (F-(k+1))/8))
        (7 - (F-(k+1)) % 8)
      = (Nat.testBit (buf (b0 + (F-(k+1))/8)) (7 - (F-(k+1)) % 8)
          || flags k) := by
  intro i
  induction i with
  | zero => intro h _ _; omega
  | succ i ih =>
    intro hk1 hiF buf
    rcases Nat.lt_or_ge k i with hki | hki
    · -- the iteration for channel k is still ahead
      rw [regIter, ih (by omega) (by omega)]
      congr 1
      exact stepEnc_testBit_ne n flags (i+1) _ _ _ _ buf
        (by
          rintro ⟨hB, ht⟩
          have hne : F - (i+1) ≠ F - (k+1) := by omega
          have : F - (i+1) = F - (k+1) := by omega
          exact hne this)
    · -- i+1 = k+1 : this is channel k's iteration
      have hik : i = k := by omega
      subst hik
      rw [regIter]
      rw [encIter_bitFrame n flags F b0 i (by omega) _ _ _
        (by
          rintro p h1 h2 ⟨hB, ht⟩
          have hpe : p = F - (i+1) := by omega
          omega)]
      exact stepEnc_testBit_self n flags i _ _ buf hk

/-- Byte-level frame: the encode loop never writes a byte before `b0`. -/
theorem encIter_byteFrame_low (n : Nat) (flags : Nat → Bool) (F b0 : Nat) :
    ∀ i (buf : Nat → Nat) (B : Nat), B < b0 →
      regIter (stepEnc n flags) F b0 i buf B = buf B := by
  intro i
  induction i with
  | zero => intro buf B _; rfl
  | succ i ih =>
    intro buf B hB
    rw [regIter, ih _ B hB]
    unfold stepEnc
    split
    · simp only [if_neg (by omega : ¬ B = b0 + (F-(i+1))/8)]
    · rfl

/-- Byte-level frame: the encode loop with `i ≤ F` never writes a byte at
or beyond `b0 + F/8` …  stated via `8*(B-b0) ≥ F`. -/
theorem encIter_byteFrame_high (n : Nat) (flags : Nat → Bool)
    (F b0 : Nat) :
    ∀ i, i ≤ F → ∀ (buf : Nat → Nat) (B : Nat), b0 ≤ B → F ≤ 8*(B - b0) →
      regIter (stepEnc n flags) F b0 i buf B = buf B := by
  intro i
  induction i with
  | zero => intro _ buf B _ _; rfl
  | succ i ih =>
    intro hiF buf B hB hF
    rw [regIter, ih (by omega) _ B hB hF]
    unfold stepEnc
    split
    · simp only [if_neg (by omega : ¬ B = b0 + (F-(i+1))/8)]
    · rfl

/-- The encode loop only reads the flags of channels `k` with `k+1 < n`:
two flag maps agreeing there produce the same buffer. -/
theorem regLoop_enc_congr (n : Nat) (flags flags' : Nat → Bool)
    (hfl : ∀ c, c + 1 < n → flags c = flags' c) :
    ∀ (i byte mask : Nat) (buf : Nat → Nat),
      regLoop (stepEnc n flags) i byte mask buf
        = regLoop (stepEnc n flags') i byte mask buf := by
  intro i
  induction i with
  | zero => intro _ _ _; rfl
  | succ i ih =>
    intro byte mask buf
    have hstep : stepEnc n flags (i+1) byte mask buf
        = stepEnc n flags' (i+1) byte mask buf := by
      unfold stepEnc
      split
      · simp only [Nat.add_sub_cancel, hfl i (by omega)]
      · rfl
    unfold regLoop
    simp only [hstep]
    split <;> exact ih _ _ _

/-! ### Characterization of the decode loop -/

/-- Channel-level frame of the decode loop: channels `c ≥ i` are not
touched when the remaining loop counter is `i`; in particular channel
`n-1` is never touched (the body guards with the strict `i < n` while
addressing instance `i-1`). -/
theorem decIter_chanFrame (n : Nat) (buf : Nat → Nat) (F b0 : Nat) :
    ∀ i (st : (Nat → Bool) × (Nat → Bool)) (c : Nat),
      i ≤ c ∨ n ≤ c + 1 →
      (regIter (stepDec n buf) F b0 i st).1 c = st.1 c ∧
      (regIter (stepDec n buf) F b0 i st).2 c = st.2 c := by
  intro i
  induction i with
  | zero => intro st c _; exact ⟨rfl, rfl⟩
  | succ i ih =>
    intro st c hc
    rw [regIter]
    have hstep : ∀ st' : (Nat → Bool) × (Nat → Bool),
        (stepDec n buf (i+1) (b0 + (F-(i+1))/8) (2^(7-(F-(i+1)) % 8)) st').1 c
          = st'.1 c ∧
        (stepDec n buf (i+1) (b0 + (F-(i+1))/8) (2^(7-(F-(i+1)) % 8)) st').2 c
          = st'.2 c := by
      intro st'
      unfold stepDec
      split
      · rename_i hin
        have hci : c ≠ i := by omega
        simp only [Nat.add_sub_cancel]
        constructor
        · simp [updB, hci]
        · split
          · simp [updB, hci]
          · rfl
      · exact ⟨rfl, rfl⟩
    have hrec := ih (stepDec n buf (i+1) (b0 + (F-(i+1))/8)
      (2^(7-(F-(i+1)) % 8)) st) c (by omega)
    exact ⟨hrec.1.trans (hstep st).1, hrec.2.trans (hstep st).2⟩

theorem bitRead_eq_testBit (x e : Nat) :
    (x &&& 2^e != 0) = Nat.testBit x e := by
  rcases h : Nat.testBit x e with _ | _
  · rw [Nat.and_two_pow, h]
    simp
  · rw [Nat.and_two_pow, h]
    simp [pow_ne_zero]

/-- The decode loop stores bit number `F-1-k` of the register block (byte
`b0 + (F-1-k)/8`, bit `7 - (F-1-k) % 8`) on the `index_pulse` pin of
channel `k`, for every `k+1 < n`, and clears that channel's
`index_enable` pin exactly when the bit is set. -/
theorem decIter_channel (n : Nat) (buf : Nat → Nat) (F b0 : Nat)
    (k : Nat) (hk : k + 1 < n) :
    ∀ i, k + 1 ≤ i → i ≤ F → ∀ st : (Nat → Bool) × (Nat → Bool),
      (regIter (stepDec n buf) F b0 i st).1 k
        = Nat.testBit (buf (b0 + (F-(k+1))/8)) (7 - (F-(k+1)) % 8) ∧
      (regIter (stepDec n buf) F b0 i st).2 k
        = (if Nat.testBit (buf (b0 + (F-(k+1))/8)) (7 - (F-(k+1)) % 8)
           then false else st.2 k) := by
  intro i
  induction i with
  | zero => intro h _ _; omega
  | succ i ih =>
    intro hk1 hiF st
    rcases Nat.lt_or_ge k i with hki | hki
    · -- channel k's iteration is still ahead
      rw [regIter]
      have h2 : ∀ st' : (Nat → Bool) × (Nat → Bool), (stepDec n buf (i+1)
          (b0 + (F-(i+1))/8) (2^(7-(F-(i+1)) % 8)) st').2 k = st'.2 k := by
        intro st'
        unfold stepDec
        split
        · have hci : k ≠ i := by omega
          simp only [Nat.add_sub_cancel]
          split
          · simp [updB, hci]
          · rfl
        · rfl
      rcases ih (by omega) (by omega) (stepDec n buf (i+1)
          (b0 + (F-(i+1))/8) (2^(7-(F-(i+1)) % 8)) st) with ⟨ha, hb⟩
      exact ⟨ha, hb.trans (by rw [h2 st])⟩
    · -- i+1 = k+1 : this is channel k's iteration
      have hik : i = k := by omega
      subst hik
      rw [regIter]
      have hframe := decIter_chanFrame n buf F b0 i
        (stepDec n buf (i+1) (b0 + (F-(i+1))/8) (2^(7-(F-(i+1)) % 8)) st)
        i (by omega)
      refine ⟨hframe.1.trans ?_, hframe.2.trans ?_⟩
      · unfold stepDec
        rw [if_pos hk]
        simp only [Nat.add_sub_cancel, updB, if_pos rfl]
        exact bitRead_eq_testBit _ _
      · unfold stepDec
        rw [if_pos hk]
        simp only [Nat.add_sub_cancel, bitRead_eq_testBit]
        rcases h : Nat.testBit (buf (b0 + (F-(i+1))/8)) (7-(F-(i+1)) % 8)
          with _ | _
        · simp [h]
        · simp [h, updB]

/-! ### Field-preservation lemmas for the estimator steps -/

theorem scaleStep_fields (s : EncInstance) :
    (scaleStep s).raw_counts = s.raw_counts ∧
    (scaleStep s).counts = s.counts ∧
    (scaleStep s).reset = s.reset ∧
    (scaleStep s).index_enable = s.index_enable ∧
    (scaleStep s).index_pulse = s.index_pulse ∧
    (scaleStep s).position = s.position ∧
    (scaleStep s).velocity = s.velocity ∧
    (scaleStep s).velocity_rpm = s.velocity_rpm ∧
    (scaleStep s).overflow_occurred = s.overflow_occurred ∧
    (scaleStep s).x4_mode = s.x4_mode ∧
    (scaleStep s).memo_position_reset = s.memo_position_reset ∧
    (scaleStep s).memo_velocity = s.memo_velocity := by
  unfold scaleStep
  split <;> simp

theorem diffBranch_fields (s : EncInstance) (co : Int) :
    (diffBranch s co).raw_counts = s.raw_counts ∧
    (diffBranch s co).counts = s.counts ∧
    (diffBranch s co).reset = s.reset ∧
    (diffBranch s co).index_enable = s.index_enable ∧
    (diffBranch s co).index_pulse = s.index_pulse ∧
    (diffBranch s co).velocity = s.velocity ∧
    (diffBranch s co).velocity_rpm = s.velocity_rpm ∧
    (diffBranch s co).position_scale = s.position_scale ∧
    (diffBranch s co).x4_mode = s.x4_mode ∧
    (diffBranch s co).memo_position_scale = s.memo_position_scale ∧
    (diffBranch s co).position_scale_recip = s.position_scale_recip ∧
    (diffBranch s co).memo_position_reset = s.memo_position_reset ∧
    (diffBranch s co).memo_velocity = s.memo_velocity := by
  unfold diffBranch
  simp only []
  split <;> split <;> simp

theorem velocityStep_fields (N : Nat) (rdt : ℚ) (vp : Nat) (po : ℚ)
    (s : EncInstance) :
    (velocityStep N rdt vp po s).1.raw_counts = s.raw_counts ∧
    (velocityStep N rdt vp po s).1.counts = s.counts ∧
    (velocityStep N rdt vp po s).1.reset = s.reset ∧
    (velocityStep N rdt vp po s).1.index_enable = s.index_enable ∧
    (velocityStep N rdt vp po s).1.index_pulse = s.index_pulse ∧
    (velocityStep N rdt vp po s).1.position = s.position ∧
    (velocityStep N rdt vp po s).1.overflow_occurred = s.overflow_occurred ∧
    (velocityStep N rdt vp po s).1.position_scale = s.position_scale ∧
    (velocityStep N rdt vp po s).1.x4_mode = s.x4_mode ∧
    (velocityStep N rdt vp po s).1.memo_position_scale = s.memo_position_scale ∧
    (velocityStep N rdt vp po s).1.position_scale_recip = s.position_scale_recip ∧
    (velocityStep N rdt vp po s).1.memo_position_reset = s.memo_position_reset := by
  unfold velocityStep
  simp

theorem update_preserved_fields (N : Nat) (rdt : ℚ) (vp : Nat)
    (raw : Int) (s : EncInstance) :
    (encoderInstanceUpdate N rdt vp raw s).1.index_pulse = s.index_pulse ∧
    (encoderInstanceUpdate N rdt vp raw s).1.index_enable = s.index_enable ∧
    (encoderInstanceUpdate N rdt vp raw s).1.position_scale
      = (scaleStep s).position_scale ∧
    (encoderInstanceUpdate N rdt vp raw s).1.memo_position_scale
      = (scaleStep s).memo_position_scale ∧
    (encoderInstanceUpdate N rdt vp raw s).1.position_scale_recip
      = (scaleStep s).position_scale_recip := by
  unfold encoderInstanceUpdate
  simp only []
  split <;> split <;> split <;>
    simp_all [ipBranch, scaleStep_fields, diffBranch_fields, velocityStep_fields]

/-- Frame of the encode loop for padding bits: a bit position `q` with
`q + n ≤ F` belongs to no channel (channel `k` sits at position `F-1-k`
with `k+1 < n`), and the loop leaves it untouched. -/
theorem encIter_padFrame (n : Nat) (flags : Nat → Bool) (F b0 q : Nat)
    (hq : q + n ≤ F) :
    ∀ i, i ≤ F → ∀ buf : Nat → Nat,
      Nat.testBit (regIter (stepEnc n flags) F b0 i buf (b0 + q/8))
          (7 - q % 8)
        = Nat.testBit (buf (b0 + q/8)) (7 - q % 8) := by
  intro i
  induction i with
  | zero => intro _ buf; rfl
  | succ i ih =>
    intro hiF buf
    rw [regIter, ih (by omega)]
    by_cases hin : i + 1 < n
    · refine stepEnc_testBit_ne n flags (i+1) _ _ _ _ buf ?_
      rintro ⟨h1, h2⟩
      have : q = F - (i+1) := by omega
      omega
    · unfold stepEnc
      rw [if_neg hin]

/-- The per-channel loop of `process_read` never writes the `index_pulse`
or `index_enable` pin of any channel. -/
theorem runChannels_pins (N : Nat) (rdt : ℚ) (raws : Nat → Int) :
    ∀ (c : Nat) (inst : Nat → EncInstance) (vp j : Nat),
      ((runChannels N rdt raws c inst vp).1 j).index_pulse
          = (inst j).index_pulse
        ∧ ((runChannels N rdt raws c inst vp).1 j).index_enable
          = (inst j).index_enable := by
  intro c
  induction c with
  | zero => intro inst vp j; exact ⟨rfl, rfl⟩
  | succ c ih =>
    intro inst vp j
    rcases ih inst vp j with ⟨h1, h2⟩
    rcases ih inst vp c with ⟨h1c, h2c⟩
    rcases update_preserved_fields N rdt
      (runChannels N rdt raws c inst vp).2 (raws c)
      ((runChannels N rdt raws c inst vp).1 c) with ⟨hu1, hu2, _⟩
    unfold runChannels
    simp only []
    constructor
    · unfold updI
      split
      · rename_i hj
        rw [hu1, h1c, hj]
      · exact h1
    · unfold updI
      split
      · rename_i hj
        rw [hu2, h2c, hj]
      · exact h2

/-! ### Claim C2 -/

/-- C2 — `required_write_buffer n = 2*ceil(n/32)*4` holds for every `n`,
but `required_read_buffer` is **not** the claimed
`ceil(n/32)*4 + n*4` and is not a function of the channel count alone: it
multiplies the global module-instance count.  With one registered module
instance and `channel_count = 2` the code yields 8 bytes where the claim
(and the amount the read loop actually consumes) is 12. -/
theorem buffer_sizes :
    (∀ n : Nat, required_write_buffer n = 2 * ((n + 31) / 32 * 4))
    ∧ required_read_buffer 1 2 = 8
    ∧ single_dword_buffer 2 + 2 * 4 = 12
    ∧ required_read_buffer 1 2 ≠ single_dword_buffer 2 + 2 * 4 := by
  refine ⟨fun n => ?_, by decide, by decide, by decide⟩
  unfold required_write_buffer
  rw [single_dword_buffer_eq]
  ring

/-! ### Claim C3 -/

/-- C3 (counterexample) — the encode→decode round-trip is *not* lossless
for `channel_count = 1`: with channel 0's flag `true` and a zeroed buffer
and destination pins, the decoded flag of channel 0 is `false` (the loops
skip the last channel). -/
theorem bit_roundtrip_cex :
    (decodeRegister 1 (encodeRegister 1 (fun _ => true) 0 zeroBuf) 0
        ((fun _ => false), (fun _ => false))).1 0 = false := by
  decide

/-- C3 (amended) — encoding a flag vector into a zeroed buffer and
decoding it back returns the original flag for every channel `k` with
`k + 1 < channel_count` (in particular for all channels but the last one
when `channel_count ∈ {0, 1, 31, 32, 33, 64}`); the last channel's flag is
not transported: its decoded pin keeps whatever value it had before. -/
theorem bit_roundtrip (n : Nat) (flags ipI ieI : Nat → Bool) (k : Nat)
    (hk : k + 1 < n) :
    (decodeRegister n (encodeRegister n flags 0 zeroBuf) 0 (ipI, ieI)).1 k
        = flags k
    ∧ (decodeRegister n (encodeRegister n flags 0 zeroBuf) 0 (ipI, ieI)).1
          (n-1)
        = ipI (n-1) := by
  have hnF : n ≤ single_dword_buffer n * 8 := le_single_dword_buffer_bits n
  unfold decodeRegister encodeRegister
  rw [regLoop_start_eq_regIter, regLoop_start_eq_regIter]
  constructor
  · rcases decIter_channel n
      (regIter (stepEnc n flags) (single_dword_buffer n * 8) 0
        (single_dword_buffer n * 8) zeroBuf)
      (single_dword_buffer n * 8) 0 k hk (single_dword_buffer n * 8)
      (by omega) le_rfl (ipI, ieI) with ⟨h1, _⟩
    rw [h1]
    rw [encIter_channel n flags (single_dword_buffer n * 8) 0 k hk
      (single_dword_buffer n * 8) (by omega) le_rfl zeroBuf]
    simp [zeroBuf]
  · exact (decIter_chanFrame n _ (single_dword_buffer n * 8) 0
      (single_dword_buffer n * 8) (ipI, ieI) (n-1) (by omega)).1

/-- C3 (witness for the amended theorem) at `channel_count = 33`,
channel 4. -/
theorem bit_roundtrip_witness :
    4 + 1 < 33
    ∧ ((decodeRegister 33
          (encodeRegister 33 (fun j => decide (j % 3 = 0)) 0 zeroBuf) 0
          ((fun _ => false), (fun _ => true))).1 4
        = (fun j : Nat => decide (j % 3 = 0)) 4
      ∧ (decodeRegister 33
          (encodeRegister 33 (fun j => decide (j % 3 = 0)) 0 zeroBuf) 0
          ((fun _ => false), (fun _ => true))).1 (33-1)
        = (fun _ : Nat => false) (33-1)) :=
  ⟨by decide, bit_roundtrip 33 (fun j => decide (j % 3 = 0))
    (fun _ => false) (fun _ => true) 4 (by decide)⟩

/-! ### Claim C6 -/

/-- C6 (counterexample) — the encode loops never *write* zero bits: they
only OR flag bits into the buffer.  With one channel (so that every bit of
the outgoing registers is padding in the sense of the claim) and an
outgoing buffer previously filled with `0xFF`, byte 1 still reads `0xFF`
after `prepare_write`, not `0x00`. -/
theorem padding_bits_cex :
    litexcnc_encoder_prepare_write moduleOneCh ffBuf 1 = 255 := by
  decide

/-- C6 (amended) — the encode loop leaves every bit it does not own
unchanged: a bit position `q` of the register block with
`q + channel_count ≤ register bits` belongs to no channel, and its value
after encoding equals its value before.  Padding bits are therefore zero
after encoding **only if** the outgoing buffer was zero-initialised, as in
the second conjunct. -/
theorem padding_bits (n : Nat) (flags : Nat → Bool) (buf : Nat → Nat)
    (q : Nat) (hq : q + n ≤ single_dword_buffer n * 8) :
    Nat.testBit (encodeRegister n flags 0 buf (q/8)) (7 - q % 8)
        = Nat.testBit (buf (q/8)) (7 - q % 8)
    ∧ Nat.testBit (encodeRegister n flags 0 zeroBuf (q/8)) (7 - q % 8)
        = false := by
  unfold encodeRegister
  rw [regLoop_start_eq_regIter, regLoop_start_eq_regIter]
  have h1 := encIter_padFrame n flags (single_dword_buffer n * 8) 0 q hq
    (single_dword_buffer n * 8) le_rfl
  constructor
  · have := h1 buf
    simpa using this
  · have := h1 zeroBuf
    simp only [Nat.zero_add] at this
    rw [this]
    simp [zeroBuf]

/-- C6 (witness for the amended theorem): `channel_count = 5`, bit
position 3, buffer previously all `0xFF`. -/
theorem padding_bits_witness :
    3 + 5 ≤ single_dword_buffer 5 * 8
    ∧ (Nat.testBit (encodeRegister 5 (fun _ => true) 0 ffBuf (3/8))
          (7 - 3 % 8)
        = Nat.testBit (ffBuf (3/8)) (7 - 3 % 8)
      ∧ Nat.testBit (encodeRegister 5 (fun _ => true) 0 zeroBuf (3/8))
          (7 - 3 % 8)
        = false) :=
  ⟨by decide, padding_bits 5 (fun _ => true) ffBuf 3 (by decide)⟩

/-- `memoStep` only touches the period memo and the cached reciprocal. -/
theorem memoStep_fields (m : EncoderModule) (period : Int) :
    (memoStep m period).num_instances = m.num_instances
    ∧ (memoStep m period).instances = m.instances
    ∧ (memoStep m period).velocity_pointer = m.velocity_pointer := by
  unfold memoStep
  split <;> exact ⟨rfl, rfl, rfl⟩

/-! ### Claim C1 -/

/-- C1 (counterexample) — with `channel_count = 2` and only channel 0's
`index_enable` high, the claim places channel 0's bit in the most
significant bit of the block (byte 0 would read `0x80`); the code instead
leaves byte 0 zero and sets the least significant bit of the 32-bit block
(byte 3 reads `0x01`). -/
theorem channel_bit_mapping_cex :
    (moduleTwoCh.instances 0).index_enable = true
    ∧ litexcnc_encoder_prepare_write moduleTwoCh zeroBuf 0 = 0
    ∧ litexcnc_encoder_prepare_write moduleTwoCh zeroBuf 3 = 1 := by
  refine ⟨by decide, by decide, by decide⟩

/-- C1 (amended) — the loops use MSB-first bit order within each byte,
but channel `k` (for `k + 1 < channel_count`) is associated with bit
number `chanBitPos = F-1-k` of the block (`F` = block bits), i.e. channel
0 occupies the **least** significant bit of the block, and the last
channel has no bit at all (the loops skip it).  The mapping is
identical between the write loops (index-enable register, then
reset-index-pulse register fed from the `index_pulse` pins) and the read
loop (index-pulse decode): the same byte `chanBitPos/8` and the same
in-byte bit `7 - chanBitPos % 8`. -/
theorem channel_bit_mapping (N : Nat) (m : EncoderModule)
    (buf : Nat → Nat) (period : Int) (k : Nat)
    (hk : k + 1 < m.num_instances) :
    Nat.testBit
        (litexcnc_encoder_prepare_write m buf
          (chanBitPos m.num_instances k / 8))
        (7 - chanBitPos m.num_instances k % 8)
      = (Nat.testBit (buf (chanBitPos m.num_instances k / 8))
          (7 - chanBitPos m.num_instances k % 8)
        || (m.instances k).index_enable)
    ∧ Nat.testBit
        (litexcnc_encoder_prepare_write m buf
          (single_dword_buffer m.num_instances
            + chanBitPos m.num_instances k / 8))
        (7 - chanBitPos m.num_instances k % 8)
      = (Nat.testBit
          (buf (single_dword_buffer m.num_instances
            + chanBitPos m.num_instances k / 8))
          (7 - chanBitPos m.num_instances k % 8)
        || (m.instances k).index_pulse)
    ∧ (((litexcnc_encoder_process_read N m buf period).instances k).index_pulse
      = Nat.testBit (buf (chanBitPos m.num_instances k / 8))
          (7 - chanBitPos m.num_instances k % 8)) := by
  have hn0 : ¬ m.num_instances = 0 := by omega
  have hnF : m.num_instances ≤ single_dword_buffer m.num_instances * 8 :=
    le_single_dword_buffer_bits m.num_instances
  have hkF : k + 1 ≤ single_dword_buffer m.num_instances * 8 := by omega
  have hbyte : chanBitPos m.num_instances k / 8
      < single_dword_buffer m.num_instances := by
    unfold chanBitPos
    omega
  refine ⟨?_, ?_, ?_⟩
  · -- index-enable register: byte of channel k lies before the second
    -- register, which starts at byte `single_dword_buffer`
    unfold litexcnc_encoder_prepare_write
    rw [if_neg hn0]
    unfold encodeRegister
    rw [regLoop_start_eq_regIter, regLoop_start_eq_regIter]
    rw [encIter_byteFrame_low _ _ _ _ _ _ _ hbyte]
    have := encIter_channel m.num_instances
      (fun c => (m.instances c).index_enable)
      (single_dword_buffer m.num_instances * 8) 0 k hk
      (single_dword_buffer m.num_instances * 8) hkF le_rfl buf
    simpa [chanBitPos] using this
  · -- reset-index-pulse register: its bytes are beyond everything the
    -- first loop writes
    unfold litexcnc_encoder_prepare_write
    rw [if_neg hn0]
    unfold encodeRegister
    rw [regLoop_start_eq_regIter, regLoop_start_eq_regIter]
    have hhigh := encIter_byteFrame_high m.num_instances
      (fun c => (m.instances c).index_enable)
      (single_dword_buffer m.num_instances * 8) 0
      (single_dword_buffer m.num_instances * 8) le_rfl buf
      (single_dword_buffer m.num_instances
        + (single_dword_buffer m.num_instances * 8 - (k+1)) / 8)
      (by omega) (by omega)
    have hch := encIter_channel m.num_instances
      (fun c => (m.instances c).index_pulse)
      (single_dword_buffer m.num_instances * 8)
      (single_dword_buffer m.num_instances) k hk
      (single_dword_buffer m.num_instances * 8) hkF le_rfl
      (regIter (stepEnc m.num_instances
        (fun c => (m.instances c).index_enable))
        (single_dword_buffer m.num_instances * 8) 0
        (single_dword_buffer m.num_instances * 8) buf)
    unfold chanBitPos
    rw [hch, hhigh]
  · -- read side: the decode loop feeds channel k from the same bit
    have hred : ((litexcnc_encoder_process_read N m buf period).instances
          k).index_pulse
        = ((runChannels N (memoStep m period).recip_dt
            (readRaws (memoStep m period).num_instances buf)
            (memoStep m period).num_instances
            (decodedInstances (memoStep m period) buf)
            (memoStep m period).velocity_pointer).1 k).index_pulse := by
      unfold litexcnc_encoder_process_read
      rw [if_neg hn0]
    rw [hred, (runChannels_pins _ _ _ _ _ _ _).1]
    unfold decodedInstances
    rcases memoStep_fields m period with ⟨hnum, hinst, _⟩
    rw [hnum, hinst]
    unfold decodeRegister
    rw [regLoop_start_eq_regIter]
    rw [(decIter_channel m.num_instances buf
      (single_dword_buffer m.num_instances * 8) 0 k hk
      (single_dword_buffer m.num_instances * 8) hkF le_rfl _).1]
    simp [chanBitPos]

/-- C1 (witness for the amended theorem): two channels, channel 0. -/
theorem channel_bit_mapping_witness :
    0 + 1 < moduleTwoCh.num_instances
    ∧ (Nat.testBit
        (litexcnc_encoder_prepare_write moduleTwoCh ffBuf
          (chanBitPos moduleTwoCh.num_instances 0 / 8))
        (7 - chanBitPos moduleTwoCh.num_instances 0 % 8)
      = (Nat.testBit (ffBuf (chanBitPos moduleTwoCh.num_instances 0 / 8))
          (7 - chanBitPos moduleTwoCh.num_instances 0 % 8)
        || (moduleTwoCh.instances 0).index_enable)
    ∧ Nat.testBit
        (litexcnc_encoder_prepare_write moduleTwoCh ffBuf
          (single_dword_buffer moduleTwoCh.num_instances
            + chanBitPos moduleTwoCh.num_instances 0 / 8))
        (7 - chanBitPos moduleTwoCh.num_instances 0 % 8)
      = (Nat.testBit
          (ffBuf (single_dword_buffer moduleTwoCh.num_instances
            + chanBitPos moduleTwoCh.num_instances 0 / 8))
          (7 - chanBitPos moduleTwoCh.num_instances 0 % 8)
        || (moduleTwoCh.instances 0).index_pulse)
    ∧ (((litexcnc_encoder_process_read 8 moduleTwoCh ffBuf 1000).instances
          0).index_pulse
      = Nat.testBit (ffBuf (chanBitPos moduleTwoCh.num_instances 0 / 8))
          (7 - chanBitPos moduleTwoCh.num_instances 0 % 8))) :=
  ⟨by decide, channel_bit_mapping 8 moduleTwoCh ffBuf 1000 0 (by decide)⟩

/-! ### Claim C4 -/

/-- C4 — the shared-register loops never touch the last channel: for any
`channel_count = n ≥ 1`, `process_read` leaves channel `n-1`'s
`index_pulse` pin unchanged and never clears its `index_enable`, and the
buffer produced by `prepare_write` is independent of channel `n-1`'s
`index_enable` and `index_pulse` flags, because each loop guards with the
strict comparison `i < num_instances` while addressing instance `i-1`. -/
theorem last_channel_untouched (N : Nat) (m : EncoderModule)
    (buf : Nat → Nat) (period : Int) (ie' ip' : Bool)
    (hn : 1 ≤ m.num_instances) :
    (((litexcnc_encoder_process_read N m buf period).instances
        (m.num_instances - 1)).index_pulse
      = (m.instances (m.num_instances - 1)).index_pulse)
    ∧ (((litexcnc_encoder_process_read N m buf period).instances
        (m.num_instances - 1)).index_enable
      = (m.instances (m.num_instances - 1)).index_enable)
    ∧ litexcnc_encoder_prepare_write (setLastPins m ie' ip') buf
      = litexcnc_encoder_prepare_write m buf := by
  have hn0 : ¬ m.num_instances = 0 := by omega
  rcases memoStep_fields m period with ⟨hnum, hinst, _⟩
  refine ⟨?_, ?_, ?_⟩
  · have hred : ((litexcnc_encoder_process_read N m buf period).instances
          (m.num_instances - 1)).index_pulse
        = ((runChannels N (memoStep m period).recip_dt
            (readRaws (memoStep m period).num_instances buf)
            (memoStep m period).num_instances
            (decodedInstances (memoStep m period) buf)
            (memoStep m period).velocity_pointer).1
            (m.num_instances - 1)).index_pulse := by
      unfold litexcnc_encoder_process_read
      rw [if_neg hn0]
    rw [hred, (runChannels_pins _ _ _ _ _ _ _).1]
    unfold decodedInstances
    rw [hnum, hinst]
    unfold decodeRegister
    rw [regLoop_start_eq_regIter]
    rw [(decIter_chanFrame _ _ _ _ _ _ (m.num_instances - 1) (by omega)).1]
  · have hred : ((litexcnc_encoder_process_read N m buf period).instances
          (m.num_instances - 1)).index_enable
        = ((runChannels N (memoStep m period).recip_dt
            (readRaws (memoStep m period).num_instances buf)
            (memoStep m period).num_instances
            (decodedInstances (memoStep m period) buf)
            (memoStep m period).velocity_pointer).1
            (m.num_instances - 1)).index_enable := by
      unfold litexcnc_encoder_process_read
      rw [if_neg hn0]
    rw [hred, (runChannels_pins _ _ _ _ _ _ _).2]
    unfold decodedInstances
    rw [hnum, hinst]
    unfold decodeRegister
    rw [regLoop_start_eq_regIter]
    rw [(decIter_chanFrame _ _ _ _ _ _ (m.num_instances - 1) (by omega)).2]
  · have hnum' : (setLastPins m ie' ip').num_instances = m.num_instances :=
      rfl
    have hie : ∀ c, c + 1 < m.num_instances →
        (fun j => (((setLastPins m ie' ip').instances) j).index_enable) c
          = (fun j => ((m.instances) j).index_enable) c := by
      intro c hc
      show ((updI m.instances (m.num_instances - 1) _) c).index_enable = _
      unfold updI
      rw [if_neg (by omega)]
    have hip : ∀ c, c + 1 < m.num_instances →
        (fun j => (((setLastPins m ie' ip').instances) j).index_pulse) c
          = (fun j => ((m.instances) j).index_pulse) c := by
      intro c hc
      show ((updI m.instances (m.num_instances - 1) _) c).index_pulse = _
      unfold updI
      rw [if_neg (by omega)]
    unfold litexcnc_encoder_prepare_write
    rw [hnum', if_neg hn0, if_neg hn0]
    unfold encodeRegister
    rw [regLoop_enc_congr m.num_instances _ _ hie,
        regLoop_enc_congr m.num_instances _ _ hip]

/-- C4 (witness): a single-channel module. -/
theorem last_channel_untouched_witness :
    1 ≤ moduleOneCh.num_instances
    ∧ ((((litexcnc_encoder_process_read 8 moduleOneCh ffBuf 1000).instances
        (moduleOneCh.num_instances - 1)).index_pulse
      = (moduleOneCh.instances (moduleOneCh.num_instances - 1)).index_pulse)
    ∧ (((litexcnc_encoder_process_read 8 moduleOneCh ffBuf 1000).instances
        (moduleOneCh.num_instances - 1)).index_enable
      = (moduleOneCh.instances (moduleOneCh.num_instances - 1)).index_enable)
    ∧ litexcnc_encoder_prepare_write (setLastPins moduleOneCh true true) ffBuf
      = litexcnc_encoder_prepare_write moduleOneCh ffBuf) :=
  ⟨by decide, last_channel_untouched 8 moduleOneCh ffBuf 1000 true true
    (by decide)⟩

/-- C8 — on any tick where a channel's `index_pulse` pin is high, the
position is re-anchored to `counts * position_scale_recip` and
`overflow_occurred` is cleared, regardless of the prior overflow state;
the velocity ring storage, `velocity` and `velocity_rpm` pins and the
shared write cursor are left untouched on that tick. -/
theorem index_pulse_reanchor (N : Nat) (rdt : ℚ) (vp : Nat) (raw : Int)
    (s : EncInstance) (hip : s.index_pulse = true) :
    ((encoderInstanceUpdate N rdt vp raw s).1.position
      = ((encoderInstanceUpdate N rdt vp raw s).1.counts : ℚ)
        * (encoderInstanceUpdate N rdt vp raw s).1.position_scale_recip)
    ∧ (encoderInstanceUpdate N rdt vp raw s).1.overflow_occurred = false
    ∧ (encoderInstanceUpdate N rdt vp raw s).1.velocity = s.velocity
    ∧ (encoderInstanceUpdate N rdt vp raw s).1.velocity_rpm = s.velocity_rpm
    ∧ (encoderInstanceUpdate N rdt vp raw s).1.memo_velocity = s.memo_velocity
    ∧ (encoderInstanceUpdate N rdt vp raw s).2 = vp := by
  unfold encoderInstanceUpdate ipBranch
  simp only []
  split <;> simp_all [scaleStep_fields]

/-- When the incoming raw value equals the (possibly re-baselined)
`counts_old`, the difference is 0, no rollover is detected, and with the
overflow pin clear the position is computed absolutely. -/
theorem diffBranch_zero (t : EncInstance) (co : Int)
    (h : t.raw_counts = co) (hov : t.overflow_occurred = false) :
    diffBranch t co
      = { t with position := (t.counts : ℚ) * t.position_scale_recip } := by
  unfold diffBranch
  simp only []
  have hd : t.raw_counts - co = 0 := by omega
  rw [hd]
  norm_num [int32_min, int32_max, hov]

/-- C9 — when `reset` is observed high on a tick without an index pulse:
the counter pin reads 0 on that same tick (the freshly captured reset
offset cancels the incoming counts exactly), the position reads 0, the
overflow flag is cleared, and the engine clears the `reset` pin itself;
because `counts_old` is re-baselined to the incoming raw value, the
difference is 0 and the reset tick is never detected as a rollover. -/
theorem reset_mechanism (N : Nat) (rdt : ℚ) (vp : Nat) (raw : Int)
    (s : EncInstance) (hrs : s.reset = true) (hip : s.index_pulse = false) :
    (encoderInstanceUpdate N rdt vp raw s).1.counts = 0
    ∧ (encoderInstanceUpdate N rdt vp raw s).1.position = 0
    ∧ (encoderInstanceUpdate N rdt vp raw s).1.overflow_occurred = false
    ∧ (encoderInstanceUpdate N rdt vp raw s).1.reset = false := by
  unfold encoderInstanceUpdate
  simp only []
  simp [scaleStep_fields, hrs, hip, velocityStep_fields, diffBranch_zero]

/-- C10 (counterexample) — the clamp only fires when `position_scale`
differs from its memoised value.  In the zero-initialised state (scale 0,
memo 0, cached reciprocal 0 — what HAL shared memory holds when the user
never sets `position-scale`) no clamp happens: the reciprocal stays 0
(never becomes 1) and the position computed from counts 100 is 0, not
`100 * 1.0`. -/
theorem scale_clamp_cex :
    zeroScaleInst.position_scale = 0
    ∧ (encoderInstanceUpdate 8 1 0 100 zeroScaleInst).1.position_scale_recip
        = 0
    ∧ ¬ (encoderInstanceUpdate 8 1 0 100 zeroScaleInst).1.position_scale_recip
        = 1
    ∧ (encoderInstanceUpdate 8 1 0 100 zeroScaleInst).1.position = 0 := by
  have hr :
      (encoderInstanceUpdate 8 1 0 100 zeroScaleInst).1.position_scale_recip
        = 0 := by
    rcases update_preserved_fields 8 1 0 100 zeroScaleInst with ⟨_, _, _, _, h5⟩
    rw [h5]
    norm_num [scaleStep, zeroScaleInst]
  refine ⟨rfl, hr, by rw [hr]; norm_num, ?_⟩
  unfold encoderInstanceUpdate
  simp only []
  norm_num [scaleStep, zeroScaleInst, velocityStep_fields, diffBranch,
    int32_min, int32_max]

/-- C10 (amended) — the near-zero clamp fires only when `position_scale`
differs from its memoised previous value: whenever it was changed to a
value in the open interval `(-1e-20, 1e-20)`, it is clamped to `1.0`
before the reciprocal is computed, and the parameter, its memo and the
cached reciprocal all read `1` after the tick, so every position
computation from then on uses the reciprocal of the clamped value (never
a reciprocal of zero).  If the near-zero value equals the memo (only
possible in the zero-initialised state), no recomputation happens at all
and the previously cached reciprocal is reused (see the
counterexample). -/
theorem scale_clamp (N : Nat) (rdt : ℚ) (vp : Nat) (raw : Int)
    (s : EncInstance)
    (hne : s.position_scale ≠ s.memo_position_scale)
    (hlo : -scaleEps < s.position_scale) (hhi : s.position_scale < scaleEps) :
    (encoderInstanceUpdate N rdt vp raw s).1.position_scale = 1
    ∧ (encoderInstanceUpdate N rdt vp raw s).1.memo_position_scale = 1
    ∧ (encoderInstanceUpdate N rdt vp raw s).1.position_scale_recip = 1 := by
  rcases update_preserved_fields N rdt vp raw s with ⟨_, _, h3, h4, h5⟩
  rw [h3, h4, h5]
  unfold scaleStep
  rw [if_neg hne]
  simp [if_pos (And.intro hlo hhi)]

/-- C10 (witness for the amended theorem): scale just set to 0, memo 2. -/
theorem scale_clamp_witness :
    (freshZeroScaleInst.position_scale ≠ freshZeroScaleInst.memo_position_scale
      ∧ -scaleEps < freshZeroScaleInst.position_scale
      ∧ freshZeroScaleInst.position_scale < scaleEps)
    ∧ ((encoderInstanceUpdate 8 1 0 100 freshZeroScaleInst).1.position_scale = 1
      ∧ (encoderInstanceUpdate 8 1 0 100
          freshZeroScaleInst).1.memo_position_scale = 1
      ∧ (encoderInstanceUpdate 8 1 0 100
          freshZeroScaleInst).1.position_scale_recip = 1) :=
  ⟨⟨by norm_num [freshZeroScaleInst], by norm_num [freshZeroScaleInst, scaleEps],
     by norm_num [freshZeroScaleInst, scaleEps]⟩,
   scale_clamp 8 1 0 100 freshZeroScaleInst
     (by norm_num [freshZeroScaleInst])
     (by norm_num [freshZeroScaleInst, scaleEps])
     (by norm_num [freshZeroScaleInst, scaleEps])⟩

/-- C7 — feeding the raw counter sequence `[2^31 - 5, -(2^31) + 10]` over
two consecutive ticks (no index pulse, no reset) trips the rollover
detection on the second tick: `overflow_occurred` becomes true (it was
false after the first tick) and the position advances by the small
corrected difference — the 64-bit delta plus `UINT_MAX`, divided by 4
when not in x4 mode, i.e. `+14` (x4) or `+3` (non-x4) — instead of
jumping by nearly `2^32` counts. -/
theorem rollover_small_difference (x4 : Bool) :
    ((encoderInstanceUpdate 8 1
        (encoderInstanceUpdate 8 1 0 (2^31 - 5) (rolloverStart x4)).2
        (-(2^31) + 10)
        (encoderInstanceUpdate 8 1 0 (2^31 - 5)
          (rolloverStart x4)).1).1.overflow_occurred = true)
    ∧ ((encoderInstanceUpdate 8 1 0 (2^31 - 5)
        (rolloverStart x4)).1.overflow_occurred = false)
    ∧ ((encoderInstanceUpdate 8 1
        (encoderInstanceUpdate 8 1 0 (2^31 - 5) (rolloverStart x4)).2
        (-(2^31) + 10)
        (encoderInstanceUpdate 8 1 0 (2^31 - 5)
          (rolloverStart x4)).1).1.position
      = (encoderInstanceUpdate 8 1 0 (2^31 - 5) (rolloverStart x4)).1.position
        + (if x4 then 14 else 3)) := by
  have ht1 : cdiv4 2147483643 = 536870910 := by decide
  have ht2 : cdiv4 (-2147483638) = -536870909 := by decide
  have ht3 : cdiv4 14 = 3 := by decide
  cases x4 <;>
    (unfold encoderInstanceUpdate
     simp only []
     norm_num [scaleStep, rolloverStart, diffBranch, velocityStep_fields,
       int32_min, int32_max, uint32_max, ht1, ht2, ht3])

/-- C8 (witness): channel with `index_pulse` high and a sticky overflow
flag. -/
theorem index_pulse_reanchor_witness :
    pulseInst.index_pulse = true
    ∧ (((encoderInstanceUpdate 8 1 4 100 pulseInst).1.position
      = ((encoderInstanceUpdate 8 1 4 100 pulseInst).1.counts : ℚ)
        * (encoderInstanceUpdate 8 1 4 100 pulseInst).1.position_scale_recip)
    ∧ (encoderInstanceUpdate 8 1 4 100 pulseInst).1.overflow_occurred = false
    ∧ (encoderInstanceUpdate 8 1 4 100 pulseInst).1.velocity
        = pulseInst.velocity
    ∧ (encoderInstanceUpdate 8 1 4 100 pulseInst).1.velocity_rpm
        = pulseInst.velocity_rpm
    ∧ (encoderInstanceUpdate 8 1 4 100 pulseInst).1.memo_velocity
        = pulseInst.memo_velocity
    ∧ (encoderInstanceUpdate 8 1 4 100 pulseInst).2 = 4) :=
  ⟨rfl, index_pulse_reanchor 8 1 4 100 pulseInst rfl⟩

/-- C9 (witness): reset requested with incoming raw counts 1000, scale 1
(x4 mode), matching the spec scenario `counts = 1000`. -/
theorem reset_mechanism_witness :
    resetInst.reset = true
    ∧ resetInst.index_pulse = false
    ∧ ((encoderInstanceUpdate 8 1 0 1000 resetInst).1.counts = 0
    ∧ (encoderInstanceUpdate 8 1 0 1000 resetInst).1.position = 0
    ∧ (encoderInstanceUpdate 8 1 0 1000 resetInst).1.overflow_occurred = false
    ∧ (encoderInstanceUpdate 8 1 0 1000 resetInst).1.reset = false) :=
  ⟨rfl, rfl, reset_mechanism 8 1 0 1000 resetInst rfl rfl⟩

/-- One quiescent tick of the probe channel: only the velocity pins, the
ring storage (slot `vp` receives the zero sample) and the shared cursor
change; the cursor is reset to 0 only when its old value was already
`≥ N`. -/
theorem velocityProbe_tick (N : Nat) (vp : Nat) (vel rpm : ℚ)
    (h : Nat → ℚ) :
    encoderInstanceUpdate N 1 vp 0 (velocityProbe vel rpm h)
      = (velocityProbe
          (Finset.sum (Finset.range N) (fun j => updQ h vp 0 j) * (1/(N:ℚ)))
          (Finset.sum (Finset.range N) (fun j => updQ h vp 0 j) * (1/(N:ℚ))
            * 60)
          (updQ h vp 0),
         if N ≤ vp then 0 else vp + 1) := by
  unfold encoderInstanceUpdate velocityStep
  simp only []
  norm_num [scaleStep, velocityProbe, diffBranch, int32_min, int32_max, updQ]

/-- After `k ≤ N` quiescent ticks the probe channel still has the probe
shape, the shared cursor reads exactly `k`, and no ring slot at index
`≥ N` has been written yet (they all still hold the sentinel 5). -/
theorem singleChannelTicks_shape (N : Nat) :
    ∀ k, k ≤ N →
      ∃ vel rpm h, singleChannelTicks N k = (velocityProbe vel rpm h, k)
        ∧ ∀ j, N ≤ j → h j = 5 := by
  intro k
  induction k with
  | zero =>
    intro _
    exact ⟨0, 0, fun _ => 5, rfl, fun j _ => rfl⟩
  | succ k ih =>
    intro hk
    rcases ih (by omega) with ⟨vel, rpm, h, heq, hj⟩
    refine ⟨Finset.sum (Finset.range N) (fun j => updQ h k 0 j) * (1/(N:ℚ)),
      Finset.sum (Finset.range N) (fun j => updQ h k 0 j) * (1/(N:ℚ)) * 60,
      updQ h k 0, ?_, ?_⟩
    · unfold singleChannelTicks
      simp only [heq]
      rw [velocityProbe_tick, if_neg (by omega : ¬ N ≤ k)]
    · intro j hjN
      unfold updQ
      rw [if_neg (by omega)]
      exact hj j hjN

/-- C5 — the shared velocity write cursor escapes the ring: with a single
channel and the cursor starting at 0, after `N` quiescent ticks the
cursor reads `N` (outside `0 … N-1`, because the C post-increment
`velocity_pointer++ >= SIZE` only wraps once the *old* value already
reached `N`), and the `(N+1)`-th tick therefore writes its velocity
sample into ring slot `N` — one past the end of the `N`-element array —
as witnessed by slot `N` changing from the sentinel 5 to the sample 0
while the averaged window only covers slots `0 … N-1`. -/
theorem velocity_cursor_overrun (N : Nat) :
    (singleChannelTicks N N).2 = N
    ∧ (singleChannelTicks N (N+1)).1.memo_velocity N = 0
    ∧ (singleChannelTicks N 0).1.memo_velocity N = 5 := by
  rcases singleChannelTicks_shape N N le_rfl with ⟨vel, rpm, h, heq, hj⟩
  refine ⟨by rw [heq], ?_, rfl⟩
  unfold singleChannelTicks
  simp only [heq]
  rw [velocityProbe_tick]
  simp [velocityProbe, updQ]

end LitexcncEncoder
